import Mathlib

/-!
Verification development for the saltsa/rest-server repository.

The repository's own files under inspection are:
  * `cmd/secure-rest-server` (flag parsing, TLS settings, listener glue),
  * `router_test.go`, the external test of the HTTP router.

The router's implementation itself is not among the repository files
available here; only its external test and the specification describe it.
The router definitions below are therefore modelled from the spec
(sections 3, 4 and 8), faithfully to its words; `tlsSettings` is embedded
directly from the Go source in `cmd/secure-rest-server`.
-/

namespace Rest

/-- Modelled from the spec: a pattern segment is either a literal string or
a named parameter marker (spec section 3, Data Model). -/
inductive Seg where
  | lit : String → Seg
  | param : String → Seg
deriving DecidableEq, Repr

/-- Modelled from the spec: a route pattern is a list of segments together
with a flag recording whether the pattern was registered with a trailing
slash, i.e. as a collection/wildcard route (spec sections 3 and 4.1). -/
structure Pattern where
  segs : List Seg
  wild : Bool
deriving DecidableEq, Repr

/-- Modelled from the spec: a parsed request path, namely its slash-separated
segments and whether the path ends in a trailing slash.  The spec requires
that `/blobs/` and `/blobs` be distinguished (section 4). -/
structure Path where
  segs : List String
  trailing : Bool
deriving DecidableEq, Repr

/-- Modelled from the spec: a route is a method, a pattern and a handler;
handlers are opaque to the router, so they are represented by an
identifier (spec section 3). -/
structure Route where
  method : String
  pattern : Pattern
  handler : Nat
deriving DecidableEq, Repr

/-- Modelled from the spec: the outcome of dispatch, either a matched
handler with its bound parameter mapping, or one of the two request-time
failures (spec sections 4.1 and 7). -/
inductive ServeResult where
  | found : Nat → List (String × String) → ServeResult
  | methodNotAllowed : ServeResult
  | notFound : ServeResult
deriving DecidableEq, Repr

/-- Uppercase a string character by character (method normalization,
spec section 4.1: methods are case-insensitive, normalized to uppercase). -/
def upperStr (s : String) : String := String.mk (s.data.map Char.toUpper)

/-- Split a character list on the slash character, keeping empty pieces,
accumulating the current piece in `acc`. -/
def splitAux : List Char → List Char → List String
  | [], acc => [String.mk acc]
  | c :: cs, acc =>
    if c = '/' then String.mk acc :: splitAux cs [] else splitAux cs (acc ++ [c])

/-- Split a string on `/`, keeping empty pieces (spec section 4:
path segmentation splits on `/`). -/
def splitSlash (s : String) : List String := splitAux s.data []

/-- Drop the empty piece produced by a leading slash, when present. -/
def dropLeadEmpty (ps : List String) : List String :=
  if ps.head? == some "" then ps.tail else ps

/-- Modelled from the spec: parse a request path into its segments and a
trailing-slash flag (spec section 4, path segmentation). -/
def parsePath (s : String) : Path :=
  let ps := dropLeadEmpty (splitSlash s)
  if ps.getLast? == some "" then ⟨ps.dropLast, true⟩ else ⟨ps, false⟩

/-- Modelled from the spec: a pattern piece beginning with the reserved
marker `:` denotes a named parameter; anything else is a literal
(spec section 4.1). -/
def parseSeg (s : String) : Seg :=
  match s.data with
  | ':' :: rest => .param (String.mk rest)
  | _ => .lit s

/-- Modelled from the spec: parse a slash-delimited pattern string; a
pattern ending in `/` denotes a collection (wildcard) route
(spec section 4.1). -/
def parsePattern (s : String) : Pattern :=
  let ps := dropLeadEmpty (splitSlash s)
  if ps.getLast? == some "" then ⟨(ps.dropLast).map parseSeg, true⟩
  else ⟨ps.map parseSeg, false⟩

/-- Does a pattern segment match a path segment when only literal matches
are allowed (used for the exact-literal match class)? -/
def segIsLitMatch : Seg → String → Bool
  | .lit l, x => l == x
  | .param _, _ => false

/-- Modelled from the spec: does a pattern segment match a path segment?
A literal must be equal; a parameter matches any non-empty segment
(spec section 3). -/
def segMatches : Seg → String → Bool
  | .lit l, x => l == x
  | .param _, x => !(x == "")

/-- Modelled from the spec: exact literal match, the highest priority class:
every pattern segment is a literal equal to the corresponding path segment,
same segment count, no trailing slash on either side (spec section 4.1,
matching algorithm step 1). -/
def exactMatch (pat : Pattern) (p : Path) : Bool :=
  !pat.wild && !p.trailing && pat.segs.length == p.segs.length &&
    (pat.segs.zip p.segs).all fun sx => segIsLitMatch sx.1 sx.2

/-- Modelled from the spec: parameterized match: equal segment counts,
literals match exactly, parameters bind non-empty segments
(spec section 4.1, matching algorithm step 2). -/
def paramMatch (pat : Pattern) (p : Path) : Bool :=
  !pat.wild && !p.trailing && pat.segs.length == p.segs.length &&
    (pat.segs.zip p.segs).all fun sx => segMatches sx.1 sx.2

/-- Modelled from the spec: collection/wildcard match: a trailing-slash
pattern matches any path extending its segments, regardless of depth, but
not the bare path without the slash (spec sections 4.1 step 3 and 4,
trailing-slash discipline). -/
def wildMatch (pat : Pattern) (p : Path) : Bool :=
  pat.wild && pat.segs.length ≤ p.segs.length &&
    ((pat.segs.zip p.segs).all fun sx => segMatches sx.1 sx.2) &&
    (pat.segs.length < p.segs.length || p.trailing)

/-- Modelled from the spec: the parameter mapping bound by a match: each
parameter segment binds the corresponding path segment
(spec sections 3 and 6). -/
def bindParams (pat : Pattern) (p : Path) : List (String × String) :=
  (pat.segs.zip p.segs).filterMap fun sx =>
    match sx.1 with
    | .param n => some (n, sx.2)
    | .lit _ => none

/-- Routes registered for a given method, in registration order. -/
def routesFor (rt : List Route) (m : String) : List Route :=
  rt.filter fun r => r.method == upperStr m

/-- Modelled from the spec: choose the best-matching route for the given
method's routes: exact literal matches first, then parameterized, then
collection/wildcard; ties within a class go to the first registered
(spec section 4.1, matching algorithm). -/
def bestMatch (rs : List Route) (p : Path) : Option Route :=
  (rs.find? fun r => exactMatch r.pattern p).orElse fun _ =>
    (rs.find? fun r => paramMatch r.pattern p).orElse fun _ =>
      rs.find? fun r => wildMatch r.pattern p

/-- Modelled from the spec: dispatch on a parsed path: pick the best match
for the request's method; otherwise, when a pattern under a different
method matches the path exactly or parametrically, the outcome is
MethodNotAllowed, else NotFound (spec section 4.1, step 4). -/
def serveP (rt : List Route) (m : String) (p : Path) : ServeResult :=
  match bestMatch (routesFor rt m) p with
  | some r => .found r.handler (bindParams r.pattern p)
  | none =>
    if rt.any fun r =>
        !(r.method == upperStr m) && (exactMatch r.pattern p || paramMatch r.pattern p)
    then .methodNotAllowed
    else .notFound

/-- Modelled from the spec: dispatch on a raw path string
(spec section 4.1, the serve contract). -/
def serve (rt : List Route) (m path : String) : ServeResult :=
  serveP rt m (parsePath path)

/-- Modelled from the spec: serve with an explicit state-passing signature,
returning the route table alongside the result; matching mutates no router
state (spec sections 3 and 5). -/
def serveSt (rt : List Route) (m : String) (p : Path) : ServeResult × List Route :=
  (serveP rt m p, rt)

/-- Modelled from the spec: the HTTP status framing of a dispatch outcome:
404 for NotFound, 405 for MethodNotAllowed (spec section 4.1). -/
def httpStatus : ServeResult → Nat
  | .found _ _ => 200
  | .methodNotAllowed => 405
  | .notFound => 404

/-- Modelled from the spec: the framed failure response: on NotFound the
reply is status 404 with no body; on MethodNotAllowed, status 405
(spec section 4.1). -/
def failureFrame : ServeResult → Option (Nat × String)
  | .found _ _ => none
  | .methodNotAllowed => some (405, "")
  | .notFound => some (404, "")

/-- Shape equality of pattern segments: literals must agree, parameters
agree regardless of name (spec section 3, invariants: identical pattern
shape and literal segments). -/
def segShapeEq : Seg → Seg → Bool
  | .lit a, .lit b => a == b
  | .param _, .param _ => true
  | _, _ => false

/-- Shape equality of patterns: same wildcard flag, same segment count,
segmentwise shape equality. -/
def patShapeEq (a b : Pattern) : Bool :=
  a.wild == b.wild && a.segs.length == b.segs.length &&
    (a.segs.zip b.segs).all fun sx => segShapeEq sx.1 sx.2

/-- The route a registration produces: method normalized to uppercase,
pattern parsed. -/
def routeOf (m pat : String) (h : Nat) : Route := ⟨upperStr m, parsePattern pat, h⟩

/-- Two routes canonically collide: same method and same pattern shape. -/
def sameShape (a b : Route) : Bool :=
  a.method == b.method && patShapeEq a.pattern b.pattern

/-- Modelled from the spec: does a segment list contain two adjacent
parameter segments with the same name (spec section 4, failure
semantics)? -/
def hasAdjDupParams : List Seg → Bool
  | .param a :: .param b :: rest => a == b || hasAdjDupParams (.param b :: rest)
  | _ :: rest => hasAdjDupParams rest
  | [] => false

/-- Modelled from the spec: registration: an empty method, an empty pattern,
or adjacent duplicate parameter names are configuration errors reported at
registration time; otherwise the new route is appended and silently shadows
any earlier route of the same method and canonical pattern shape
(spec sections 3, 4.1 and 4, failure semantics). -/
def register (rt : List Route) (m pat : String) (h : Nat) :
    Except String (List Route) :=
  if m = "" then .error "empty method"
  else if pat = "" then .error "empty pattern"
  else if hasAdjDupParams (parsePattern pat).segs then
    .error "adjacent duplicate parameter names"
  else .ok ((rt.filter fun r => !(sameShape r (routeOf m pat h))) ++ [routeOf m pat h])

/-- Register a whole list of (method, pattern, handler) triples in order,
starting from the empty table. -/
def registerAll (regs : List (String × String × Nat)) : Except String (List Route) :=
  regs.foldlM (fun rt r => register rt r.1 r.2.1 r.2.2) []

/-- The route table of the spec's section 8 scenario:
GET /config, POST /config, GET /blobs/, GET /blobs/:sha. -/
def demoRt : List Route :=
  [⟨"GET", ⟨[.lit "config"], false⟩, 0⟩,
   ⟨"POST", ⟨[.lit "config"], false⟩, 1⟩,
   ⟨"GET", ⟨[.lit "blobs"], true⟩, 2⟩,
   ⟨"GET", ⟨[.lit "blobs", .param "sha"], false⟩, 3⟩]

/-- A table registering the collection pattern and the parameterized item
pattern of the spec's section 8 properties: GET /blobs/ and GET /blobs/:id. -/
def blobRt : List Route :=
  [⟨"GET", ⟨[.lit "blobs"], true⟩, 0⟩,
   ⟨"GET", ⟨[.lit "blobs", .param "id"], false⟩, 1⟩]

/-- A table registering both the trailing-slash pattern /blobs/ and the bare
pattern /blobs under one method. -/
def slashRt : List Route :=
  [⟨"GET", ⟨[.lit "blobs"], true⟩, 0⟩,
   ⟨"GET", ⟨[.lit "blobs"], false⟩, 1⟩]

/-- Is a pattern segment a literal? -/
def isLit : Seg → Bool
  | .lit _ => true
  | .param _ => false

/-- The literal value carried by a segment (the name, for a parameter). -/
def segVal : Seg → String
  | .lit l => l
  | .param n => n

/-- The request path spelled by an all-literal pattern: its literal segments,
with no trailing slash. -/
def litPath (pat : Pattern) : Path := ⟨pat.segs.map segVal, false⟩

/-- The table obtained from the scenario table by registering
GET /blobs/:other with handler 9: it shadows GET /blobs/:sha. -/
def rtW : List Route :=
  [⟨"GET", ⟨[.lit "config"], false⟩, 0⟩,
   ⟨"POST", ⟨[.lit "config"], false⟩, 1⟩,
   ⟨"GET", ⟨[.lit "blobs"], true⟩, 2⟩,
   ⟨"GET", ⟨[.lit "blobs", .param "other"], false⟩, 9⟩]

/-- The server settings consumed by tlsSettings, embedded from
`cmd/secure-rest-server` (the fields of restserver.Server it reads). -/
structure Server where
  TLS : Bool
  TLSKey : String
  TLSCert : String
  Path : String
deriving DecidableEq, Repr

/-- Join of a directory and a file name, as filepath.Join behaves on the
arguments used by tlsSettings. -/
def filepathJoin (a b : String) : String :=
  if a = "" then b else a ++ "/" ++ b

/-- Embedded from `cmd/secure-rest-server` (function tlsSettings): resolve
the TLS enable flag and the key and certificate paths, defaulting to
`private_key` and `public_key` under the data directory; requesting key or
certificate paths without TLS is an error. -/
def tlsSettings (s : Server) : Except String (Bool × String × String) :=
  if s.TLS = false ∧ (s.TLSKey ≠ "" ∨ s.TLSCert ≠ "") then
    .error "requires enabled TLS"
  else if s.TLS = false then .ok (false, "", "")
  else
    let key := if s.TLSKey ≠ "" then s.TLSKey else filepathJoin s.Path "private_key"
    let cert := if s.TLSCert ≠ "" then s.TLSCert else filepathJoin s.Path "public_key"
    .ok (true, key, cert)

/-! Helper lemmas. -/

/-- All pairs of the zip of a list with itself are shape-equal. -/
theorem zip_self_shape : ∀ ss : List Seg,
    ((ss.zip ss).all fun sx => segShapeEq sx.1 sx.2) = true := by
  intro ss
  induction ss with
  | nil => rfl
  | cons a ss ih =>
    simp only [List.zip_cons_cons, List.all_cons, ih, Bool.and_true]
    cases a <;> simp [segShapeEq]

/-- Pattern shape equality is reflexive. -/
theorem patShapeEq_self (pat : Pattern) : patShapeEq pat pat = true := by
  simp [patShapeEq, zip_self_shape]

/-- Route shape collision is reflexive. -/
theorem sameShape_self (r : Route) : sameShape r r = true := by
  simp [sameShape, patShapeEq_self]

/-- Segment shape equality is symmetric. -/
theorem segShapeEq_symm (a b : Seg) : segShapeEq a b = segShapeEq b a := by
  cases a <;> cases b <;> simp [segShapeEq, beq_iff_eq, eq_comm]

/-- Segmentwise shape equality of two zipped lists is symmetric. -/
theorem zip_all_shape_symm : ∀ ss ts : List Seg,
    ((ss.zip ts).all fun sx => segShapeEq sx.1 sx.2) =
      ((ts.zip ss).all fun sx => segShapeEq sx.1 sx.2) := by
  intro ss
  induction ss with
  | nil => intro ts; cases ts <;> rfl
  | cons a ss ih =>
    intro ts
    cases ts with
    | nil => rfl
    | cons b ts =>
      simp only [List.zip_cons_cons, List.all_cons]
      rw [segShapeEq_symm a b, ih ts]

/-- Pattern shape equality is symmetric. -/
theorem patShapeEq_symm (a b : Pattern) : patShapeEq a b = patShapeEq b a := by
  unfold patShapeEq
  have h1 : (a.wild == b.wild) = (b.wild == a.wild) := Bool.beq_comm
  have h2 : (a.segs.length == b.segs.length) =
      (b.segs.length == a.segs.length) := Bool.beq_comm
  rw [h1, h2, zip_all_shape_symm]

/-- Route shape collision is symmetric. -/
theorem sameShape_symm (a b : Route) : sameShape a b = sameShape b a := by
  unfold sameShape
  have h1 : (a.method == b.method) = (b.method == a.method) := Bool.beq_comm
  rw [h1, patShapeEq_symm]

/-- Segment shape equality is transitive. -/
theorem segShapeEq_trans {a b c : Seg} (h1 : segShapeEq a b = true)
    (h2 : segShapeEq b c = true) : segShapeEq a c = true := by
  cases a <;> cases b <;> cases c <;> simp_all [segShapeEq, beq_iff_eq]

/-! Claim theorems. -/

/-- C10. tlsSettings returns an error exactly when TLS is off and a key or
certificate path was still supplied; with TLS off and both empty it returns
(false, "", ""); with TLS on it returns the supplied key and certificate
paths, defaulting to private_key and public_key under the data directory. -/
theorem tlsSettings_spec (s : Server) :
    ((∃ e, tlsSettings s = .error e) ↔
      s.TLS = false ∧ (s.TLSKey ≠ "" ∨ s.TLSCert ≠ "")) ∧
    (s.TLS = false → s.TLSKey = "" → s.TLSCert = "" →
      tlsSettings s = .ok (false, "", "")) ∧
    (s.TLS = true → tlsSettings s = .ok (true,
      (if s.TLSKey ≠ "" then s.TLSKey else filepathJoin s.Path "private_key"),
      (if s.TLSCert ≠ "" then s.TLSCert else filepathJoin s.Path "public_key"))) := by
  unfold tlsSettings
  split_ifs with h1 h2 <;> simp_all
  tauto

/-- Witness for C10: a server with TLS on and no explicit key or certificate
paths resolves them under the data directory. -/
theorem tlsSettings_spec_witness :
    tlsSettings ⟨true, "", "", "/data"⟩ =
      .ok (true, "/data/private_key", "/data/public_key") := by
  have h := (tlsSettings_spec ⟨true, "", "", "/data"⟩).2.2 rfl
  simpa [filepathJoin] using h

/-- C8. register reports a configuration error exactly for an empty method,
an empty pattern, or a pattern with two adjacent equally-named parameter
segments; no malformed registration is deferred to a per-request error. -/
theorem register_error_iff (rt : List Route) (m pat : String) (h : Nat) :
    (∃ e, register rt m pat h = .error e) ↔
      m = "" ∨ pat = "" ∨ hasAdjDupParams (parsePattern pat).segs = true := by
  unfold register
  split_ifs with h1 h2 h3 <;> simp_all

/-- C9. serve is deterministic and pure: with the state-passing signature it
returns the route table unchanged, a second invocation on the resulting
state returns the identical result, and the outcome depends only on the
method, the path and the registered routes. -/
theorem serve_pure (rt : List Route) (m : String) (p : Path) :
    (serveSt rt m p).2 = rt ∧
    serveSt (serveSt rt m p).2 m p = serveSt rt m p ∧
    ∀ rt₂, rt₂ = rt → serveSt rt₂ m p = serveSt rt m p :=
  ⟨rfl, rfl, fun _ h => by rw [h]⟩

/-- C6. Trailing-slash discipline: a collection pattern never matches the
bare path of its own segments without the trailing slash, a bare pattern
never matches a trailing-slash path under any match class, and /blobs and
/blobs/ are dispatched by distinct registered patterns. -/
theorem trailing_slash_distinct (pat : Pattern) (p : Path) :
    (pat.wild = true → p.trailing = false → pat.segs.length = p.segs.length →
      wildMatch pat p = false) ∧
    (pat.wild = false → p.trailing = true →
      exactMatch pat p = false ∧ paramMatch pat p = false ∧
        wildMatch pat p = false) ∧
    serve slashRt "GET" "/blobs" = .found 1 [] ∧
    serve slashRt "GET" "/blobs/" = .found 0 [] := by
  refine ⟨?_, ?_, by decide, by decide⟩
  · intro hw ht hl
    simp [wildMatch, hw, ht, hl]
  · intro hw ht
    refine ⟨?_, ?_, ?_⟩ <;> simp [exactMatch, paramMatch, wildMatch, hw, ht]

/-- Membership in the per-method table means membership in the table with
the normalized method. -/
theorem mem_of_mem_routesFor {rt : List Route} {m : String} {r : Route}
    (hr : r ∈ routesFor rt m) : r ∈ rt ∧ r.method = upperStr m := by
  have h := List.mem_filter.1 hr
  exact ⟨h.1, by simpa [beq_iff_eq] using h.2⟩

/-- C5. Not-found outcome: when no registered pattern matches the path under
any match class, serve returns NotFound, framed as HTTP status 404 with no
body; mismatches degrade to this return value rather than raising. -/
theorem serve_not_found (rt : List Route) (m : String) (p : Path)
    (h : ∀ r ∈ rt, exactMatch r.pattern p = false ∧ paramMatch r.pattern p = false ∧
      wildMatch r.pattern p = false) :
    serveP rt m p = .notFound ∧ failureFrame (serveP rt m p) = some (404, "") := by
  have he : (routesFor rt m).find? (fun r => exactMatch r.pattern p) = none :=
    List.find?_eq_none.2 fun r hr => by
      simp [(h r (mem_of_mem_routesFor hr).1).1]
  have hp : (routesFor rt m).find? (fun r => paramMatch r.pattern p) = none :=
    List.find?_eq_none.2 fun r hr => by
      simp [(h r (mem_of_mem_routesFor hr).1).2.1]
  have hw : (routesFor rt m).find? (fun r => wildMatch r.pattern p) = none :=
    List.find?_eq_none.2 fun r hr => by
      simp [(h r (mem_of_mem_routesFor hr).1).2.2]
  have hany : (rt.any fun r =>
      !(r.method == upperStr m) &&
        (exactMatch r.pattern p || paramMatch r.pattern p)) = false :=
    List.any_eq_false.2 fun r hr => by
      simp [(h r hr).1, (h r hr).2.1]
  have hs : serveP rt m p = .notFound := by
    simp [serveP, bestMatch, he, hp, hw, hany, Option.orElse]
  exact ⟨hs, by rw [hs]; rfl⟩

/-- Witness for C5: on the scenario table, GET of the unregistered path
/unknown is NotFound, framed as status 404 with an empty body. -/
theorem serve_not_found_witness :
    serveP demoRt "GET" ⟨["unknown"], false⟩ = .notFound ∧
    failureFrame (serveP demoRt "GET" ⟨["unknown"], false⟩) = some (404, "") :=
  serve_not_found demoRt "GET" ⟨["unknown"], false⟩ (by decide)

/-- C3. Method-not-allowed outcome: when no pattern of the request's method
matches but a pattern of a different method matches the path exactly or
parametrically, serve returns MethodNotAllowed, framed as HTTP status 405,
not NotFound. -/
theorem serve_method_not_allowed (rt : List Route) (m : String) (p : Path)
    (hno : ∀ r ∈ routesFor rt m, exactMatch r.pattern p = false ∧
      paramMatch r.pattern p = false ∧ wildMatch r.pattern p = false)
    (hother : ∃ r ∈ rt, r.method ≠ upperStr m ∧
      (exactMatch r.pattern p = true ∨ paramMatch r.pattern p = true)) :
    serveP rt m p = .methodNotAllowed ∧ httpStatus (serveP rt m p) = 405 := by
  have he : (routesFor rt m).find? (fun r => exactMatch r.pattern p) = none :=
    List.find?_eq_none.2 fun r hr => by simp [(hno r hr).1]
  have hp : (routesFor rt m).find? (fun r => paramMatch r.pattern p) = none :=
    List.find?_eq_none.2 fun r hr => by simp [(hno r hr).2.1]
  have hw : (routesFor rt m).find? (fun r => wildMatch r.pattern p) = none :=
    List.find?_eq_none.2 fun r hr => by simp [(hno r hr).2.2]
  have hany : (rt.any fun r =>
      !(r.method == upperStr m) &&
        (exactMatch r.pattern p || paramMatch r.pattern p)) = true := by
    obtain ⟨r, hr, hm, hmatch⟩ := hother
    refine List.any_eq_true.2 ⟨r, hr, ?_⟩
    have h1 : (r.method == upperStr m) = false := beq_eq_false_iff_ne.2 hm
    rcases hmatch with h2 | h2 <;> simp [h1, h2]
  have hs : serveP rt m p = .methodNotAllowed := by
    simp [serveP, bestMatch, he, hp, hw, hany, Option.orElse]
  exact ⟨hs, by rw [hs]; rfl⟩

/-- Witness for C3: on the scenario table, DELETE /config (a path registered
under GET and POST only) is MethodNotAllowed with status 405. -/
theorem serve_method_not_allowed_witness :
    serveP demoRt "DELETE" ⟨["config"], false⟩ = .methodNotAllowed ∧
    httpStatus (serveP demoRt "DELETE" ⟨["config"], false⟩) = 405 :=
  serve_method_not_allowed demoRt "DELETE" ⟨["config"], false⟩ (by decide) (by decide)

/-- C1. Match precedence within one method: whenever a collection (wildcard)
pattern matches the path, serve returns an exact or parameterized match when
one exists, and returns the collection handler only when no exact or
parameterized pattern of the same method matches. -/
theorem serve_wildcard_precedence (rt : List Route) (m : String) (p : Path)
    (hw : ∃ w ∈ routesFor rt m, wildMatch w.pattern p = true) :
    ((∃ r ∈ routesFor rt m, exactMatch r.pattern p = true ∨
        paramMatch r.pattern p = true) →
      ∃ r ∈ routesFor rt m,
        (exactMatch r.pattern p = true ∨ paramMatch r.pattern p = true) ∧
        serveP rt m p = .found r.handler (bindParams r.pattern p)) ∧
    ((∀ r ∈ routesFor rt m, exactMatch r.pattern p = false ∧
        paramMatch r.pattern p = false) →
      ∃ w ∈ routesFor rt m, wildMatch w.pattern p = true ∧
        serveP rt m p = .found w.handler (bindParams w.pattern p)) := by
  cases he : (routesFor rt m).find? (fun r => exactMatch r.pattern p) with
  | some r =>
    have hr := List.mem_of_find?_eq_some he
    have hx := List.find?_some he
    have hserve : serveP rt m p = .found r.handler (bindParams r.pattern p) := by
      simp [serveP, bestMatch, he, Option.orElse]
    exact ⟨fun _ => ⟨r, hr, Or.inl hx, hserve⟩,
           fun hall => absurd hx (by simp [(hall r hr).1])⟩
  | none =>
    cases hp : (routesFor rt m).find? (fun r => paramMatch r.pattern p) with
    | some r =>
      have hr := List.mem_of_find?_eq_some hp
      have hx := List.find?_some hp
      have hserve : serveP rt m p = .found r.handler (bindParams r.pattern p) := by
        simp [serveP, bestMatch, he, hp, Option.orElse]
      exact ⟨fun _ => ⟨r, hr, Or.inr hx, hserve⟩,
             fun hall => absurd hx (by simp [(hall r hr).2])⟩
    | none =>
      have hwn : ((routesFor rt m).find? (fun r => wildMatch r.pattern p)).isSome := by
        refine List.find?_isSome.2 ?_
        obtain ⟨w, hw1, hw2⟩ := hw
        exact ⟨w, hw1, hw2⟩
      obtain ⟨w, hwf⟩ := Option.isSome_iff_exists.1 hwn
      have hwr := List.mem_of_find?_eq_some hwf
      have hwx := List.find?_some hwf
      have hserve : serveP rt m p = .found w.handler (bindParams w.pattern p) := by
        simp [serveP, bestMatch, he, hp, hwf, Option.orElse]
      refine ⟨fun hex => ?_, fun _ => ⟨w, hwr, hwx, hserve⟩⟩
      obtain ⟨r, hr, hor⟩ := hex
      cases hor with
      | inl h1 => have h2 := List.find?_eq_none.1 he r hr; simp [h1] at h2
      | inr h1 => have h2 := List.find?_eq_none.1 hp r hr; simp [h1] at h2

/-- Witness for C1: on the scenario table, the collection pattern /blobs/
matches the path /blobs/test, and because the parameterized pattern
/blobs/:sha also matches, serve returns that more specific handler. -/
theorem serve_wildcard_precedence_witness :
    ∃ r ∈ routesFor demoRt "GET",
      (exactMatch r.pattern ⟨["blobs", "test"], false⟩ = true ∨
        paramMatch r.pattern ⟨["blobs", "test"], false⟩ = true) ∧
      serveP demoRt "GET" ⟨["blobs", "test"], false⟩ =
        .found r.handler (bindParams r.pattern ⟨["blobs", "test"], false⟩) :=
  (serve_wildcard_precedence demoRt "GET" ⟨["blobs", "test"], false⟩
    (by decide)).1 (by decide)

/-- A zip of segments against strings that passes the literal-match test
forces the segments to be exactly the literals of those strings. -/
theorem zip_all_lit : ∀ (ss : List Seg) (xs : List String), ss.length = xs.length →
    ((ss.zip xs).all fun sx => segIsLitMatch sx.1 sx.2) = true →
    ss = xs.map Seg.lit := by
  intro ss
  induction ss with
  | nil =>
    intro xs hl _
    cases xs with
    | nil => rfl
    | cons x xs => simp at hl
  | cons a ss ih =>
    intro xs hl hall
    cases xs with
    | nil => simp at hl
    | cons x xs =>
      simp only [List.zip_cons_cons, List.all_cons, Bool.and_eq_true] at hall
      have ha : a = Seg.lit x := by
        cases a with
        | lit l =>
          have hx : l = x := by simpa [segIsLitMatch] using hall.1
          rw [hx]
        | param n => simp [segIsLitMatch] at hall
      simp only [List.map_cons]
      rw [ha, ih xs (by simpa using hl) hall.2]

/-- An exact match pins down the pattern: its segments are the literals of
the path's segments, and neither side has the wildcard/trailing flag. -/
theorem exactMatch_segs_eq {pat : Pattern} {p : Path}
    (h : exactMatch pat p = true) :
    pat.segs = p.segs.map Seg.lit ∧ pat.wild = false ∧ p.trailing = false := by
  unfold exactMatch at h
  simp only [Bool.and_eq_true, Bool.not_eq_true', beq_iff_eq] at h
  obtain ⟨⟨⟨hw, ht⟩, hl⟩, hall⟩ := h
  exact ⟨zip_all_lit pat.segs p.segs hl hall, hw, ht⟩

/-- An all-literal segment list literal-matches its own values. -/
theorem zip_map_segVal_all : ∀ ss : List Seg, ss.all isLit = true →
    ((ss.zip (ss.map segVal)).all fun sx => segIsLitMatch sx.1 sx.2) = true := by
  intro ss
  induction ss with
  | nil => intro _; rfl
  | cons a ss ih =>
    intro h
    simp only [List.all_cons, Bool.and_eq_true] at h
    simp only [List.map_cons, List.zip_cons_cons, List.all_cons, Bool.and_eq_true]
    refine ⟨?_, ih h.2⟩
    cases a with
    | lit l => simp [segIsLitMatch, segVal]
    | param n => simp [isLit] at h

/-- An all-literal, non-wildcard pattern exactly matches the path it
spells. -/
theorem exactMatch_litPath (pat : Pattern) (hw : pat.wild = false)
    (hl : pat.segs.all isLit = true) : exactMatch pat (litPath pat) = true := by
  unfold exactMatch litPath
  simp [hw, zip_map_segVal_all pat.segs hl]

/-- An all-literal pattern binds no parameters on any path. -/
theorem bindParams_all_lit (pat : Pattern) (p : Path)
    (hl : pat.segs.all isLit = true) : bindParams pat p = [] := by
  unfold bindParams
  rw [List.filterMap_eq_nil_iff]
  intro sx hsx
  obtain ⟨a, b⟩ := sx
  have h1 : a ∈ pat.segs := (List.of_mem_zip hsx).1
  have h2 := List.all_eq_true.1 hl a h1
  cases a with
  | lit l => rfl
  | param n => simp [isLit] at h2

/-- Patterns with equal segments and equal wildcard flag are shape-equal. -/
theorem patShapeEq_of_eq {a b : Pattern} (hs : a.segs = b.segs)
    (hw : a.wild = b.wild) : patShapeEq a b = true := by
  unfold patShapeEq
  rw [hs, hw]
  simp [zip_self_shape]

/-- C4. Exact literal dispatch: a registered route whose pattern is
all-literal and non-wildcard is returned by serve on its own literal path,
with an empty parameter mapping, provided no two routes of that method
share a canonical shape. -/
theorem serve_exact_literal (rt : List Route) (m : String) (r : Route)
    (hr : r ∈ routesFor rt m)
    (hwild : r.pattern.wild = false)
    (hlits : r.pattern.segs.all isLit = true)
    (huniq : ∀ r₁ ∈ routesFor rt m, ∀ r₂ ∈ routesFor rt m,
      sameShape r₁ r₂ = true → r₁ = r₂) :
    serveP rt m (litPath r.pattern) = .found r.handler [] := by
  have hx : exactMatch r.pattern (litPath r.pattern) = true :=
    exactMatch_litPath r.pattern hwild hlits
  have hsome :
      ((routesFor rt m).find? fun rr =>
        exactMatch rr.pattern (litPath r.pattern)).isSome :=
    List.find?_isSome.2 ⟨r, hr, hx⟩
  obtain ⟨r2, hfind⟩ := Option.isSome_iff_exists.1 hsome
  have hr2 := List.mem_of_find?_eq_some hfind
  have hx2 := List.find?_some hfind
  have hx2' : exactMatch r2.pattern (litPath r.pattern) = true := hx2
  obtain ⟨hseq, hw1, _⟩ := exactMatch_segs_eq hx
  obtain ⟨hseq2, hw2, _⟩ := exactMatch_segs_eq hx2'
  have hshape : sameShape r2 r = true := by
    unfold sameShape
    rw [(mem_of_mem_routesFor hr2).2, (mem_of_mem_routesFor hr).2]
    simp [patShapeEq_of_eq (hseq2.trans hseq.symm) (hw2.trans hw1.symm)]
  have hr2r : r2 = r := huniq r2 hr2 r hr hshape
  have hserve : serveP rt m (litPath r.pattern) =
      .found r2.handler (bindParams r2.pattern (litPath r.pattern)) := by
    simp [serveP, bestMatch, hfind, Option.orElse]
  rw [hserve, hr2r, bindParams_all_lit r.pattern _ hlits]

/-- Witness for C4: on the scenario table, GET of the literal path /config
returns the config handler with an empty parameter mapping. -/
theorem serve_exact_literal_witness :
    serveP demoRt "GET" (litPath ⟨[Seg.lit "config"], false⟩) = .found 0 [] :=
  serve_exact_literal demoRt "GET" ⟨"GET", ⟨[Seg.lit "config"], false⟩, 0⟩
    (by decide) rfl rfl (by decide)

/-- C7. Duplicate-registration shadowing: register never errors because of a
duplicate pattern; a successful registration preserves the invariant that no
two routes of one method share a canonical pattern shape, exactly one route
carries the new registration's shape afterwards, and that route is the new
one (the later registration is authoritative). -/
theorem register_last_wins (rt : List Route) (m pat : String) (h : Nat)
    (rt' : List Route) (hok : register rt m pat h = .ok rt')
    (hwf : ∀ r₁ ∈ rt, ∀ r₂ ∈ rt, sameShape r₁ r₂ = true → r₁ = r₂) :
    (∀ r₁ ∈ rt', ∀ r₂ ∈ rt', sameShape r₁ r₂ = true → r₁ = r₂) ∧
    rt'.countP (fun r => sameShape r (routeOf m pat h)) = 1 ∧
    (∀ r ∈ rt', sameShape r (routeOf m pat h) = true → r = routeOf m pat h) ∧
    (∀ (rt₂ : List Route) (h₂ : Nat), ∃ rt₂', register rt₂ m pat h₂ = .ok rt₂') := by
  unfold register at hok
  split_ifs at hok with h1 h2 h3
  rw [Except.ok.injEq] at hok
  subst hok
  refine ⟨?_, ?_, ?_, ?_⟩
  · intro r₁ hm₁ r₂ hm₂ hs
    rcases List.mem_append.1 hm₁ with hf₁ | hs₁
    · rcases List.mem_append.1 hm₂ with hf₂ | hs₂
      · exact hwf r₁ (List.mem_filter.1 hf₁).1 r₂ (List.mem_filter.1 hf₂).1 hs
      · have hneg := (List.mem_filter.1 hf₁).2
        rw [List.mem_singleton.1 hs₂] at hs
        simp [hs] at hneg
    · have hs₁' : r₁ = routeOf m pat h := List.mem_singleton.1 hs₁
      rcases List.mem_append.1 hm₂ with hf₂ | hs₂
      · have hneg := (List.mem_filter.1 hf₂).2
        rw [hs₁'] at hs
        rw [sameShape_symm] at hs
        simp [hs] at hneg
      · rw [hs₁', List.mem_singleton.1 hs₂]
  · rw [List.countP_append]
    have hz : (rt.filter fun r => !(sameShape r (routeOf m pat h))).countP
        (fun r => sameShape r (routeOf m pat h)) = 0 := by
      rw [List.countP_eq_zero]
      intro a ha
      have hneg := (List.mem_filter.1 ha).2
      simp only [Bool.not_eq_true'] at hneg
      simp [hneg]
    rw [hz]
    simp [List.countP_cons, sameShape_self]
  · intro r hm hs
    rcases List.mem_append.1 hm with hf | hsg
    · have hneg := (List.mem_filter.1 hf).2
      simp [hs] at hneg
    · exact List.mem_singleton.1 hsg
  · intro rt₂ h₂
    unfold register
    rw [if_neg h1, if_neg h2, if_neg h3]
    exact ⟨_, rfl⟩

/-- Witness for C7: registering GET /blobs/:other on the scenario table
succeeds, shadows GET /blobs/:sha, and leaves exactly one route of that
shape: the new one. -/
theorem register_last_wins_witness :
    (∀ r₁ ∈ rtW, ∀ r₂ ∈ rtW, sameShape r₁ r₂ = true → r₁ = r₂) ∧
    rtW.countP (fun r => sameShape r (routeOf "GET" "/blobs/:other" 9)) = 1 ∧
    (∀ r ∈ rtW, sameShape r (routeOf "GET" "/blobs/:other" 9) = true →
      r = routeOf "GET" "/blobs/:other" 9) ∧
    (∀ (rt₂ : List Route) (h₂ : Nat),
      ∃ rt₂', register rt₂ "GET" "/blobs/:other" h₂ = .ok rt₂') :=
  register_last_wins demoRt "GET" "/blobs/:other" 9 rtW rfl (by decide)

/-- Splitting a list starting with a slash flushes the accumulator. -/
theorem splitAux_cons_slash (cs acc : List Char) :
    splitAux ('/' :: cs) acc = String.mk acc :: splitAux cs [] := by
  simp [splitAux]

/-- Splitting a list starting with a non-slash extends the accumulator. -/
theorem splitAux_cons_of_ne (c : Char) (cs acc : List Char) (h : ¬c = '/') :
    splitAux (c :: cs) acc = splitAux cs (acc ++ [c]) := by
  simp [splitAux, h]

/-- Splitting a slash-free list yields a single piece. -/
theorem splitAux_no_slash : ∀ cs acc : List Char, '/' ∉ cs →
    splitAux cs acc = [String.mk (acc ++ cs)] := by
  intro cs
  induction cs with
  | nil => intro acc _; simp [splitAux]
  | cons c cs ih =>
    intro acc h
    have hc : ¬c = '/' := fun hc => h (by rw [hc]; exact List.mem_cons_self _ _)
    rw [splitAux_cons_of_ne c cs acc hc,
        ih (acc ++ [c]) (fun hm => h (List.mem_cons_of_mem c hm)),
        List.append_assoc]
    rfl

/-- Parsing /blobs/ followed by a non-empty slash-free suffix yields the
two segments blobs and the suffix, with no trailing slash. -/
theorem parsePath_blobs (s : String) (h1 : s ≠ "") (h2 : '/' ∉ s.data) :
    parsePath ("/blobs/" ++ s) = ⟨["blobs", s], false⟩ := by
  have hd : ("/blobs/" ++ s).data
      = '/' :: 'b' :: 'l' :: 'o' :: 'b' :: 's' :: '/' :: s.data := rfl
  have hsplit : splitSlash ("/blobs/" ++ s) = ["", "blobs", s] := by
    unfold splitSlash
    rw [hd, splitAux_cons_slash,
        splitAux_cons_of_ne _ _ _ (by decide),
        splitAux_cons_of_ne _ _ _ (by decide),
        splitAux_cons_of_ne _ _ _ (by decide),
        splitAux_cons_of_ne _ _ _ (by decide),
        splitAux_cons_of_ne _ _ _ (by decide),
        splitAux_cons_slash,
        splitAux_no_slash s.data [] h2]
    rfl
  have hdrop : dropLeadEmpty ["", "blobs", s] = ["blobs", s] := by
    simp [dropLeadEmpty]
  have hlast : (["blobs", s] : List String).getLast? = some s := by simp
  have hcond : ((some s : Option String) == some "") = false := by
    rw [show ((some s : Option String) == some "") = (s == "") from rfl]
    exact beq_eq_false_iff_ne.2 h1
  simp [parsePath, hsplit, hdrop, hlast, hcond]

/-- C2. Parameter binding and segment-count discipline: with GET /blobs/
and GET /blobs/:id registered, a request for /blobs/ followed by one
non-empty slash-free segment s returns the item handler with id bound to s,
while /blobs/ itself fails the parameterized pattern and returns the
collection handler. -/
theorem serve_param_binding (s : String) (h1 : s ≠ "") (h2 : '/' ∉ s.data) :
    serve blobRt "GET" ("/blobs/" ++ s) = .found 1 [("id", s)] ∧
    paramMatch ⟨[Seg.lit "blobs", Seg.param "id"], false⟩ (parsePath "/blobs/")
      = false ∧
    serve blobRt "GET" "/blobs/" = .found 0 [] := by
  refine ⟨?_, by decide, by decide⟩
  unfold serve
  rw [parsePath_blobs s h1 h2]
  have hup : routesFor blobRt "GET" =
      [⟨"GET", ⟨[Seg.lit "blobs"], true⟩, 0⟩,
       ⟨"GET", ⟨[Seg.lit "blobs", Seg.param "id"], false⟩, 1⟩] := by decide
  have hs0 : (s == "") = false := beq_eq_false_iff_ne.2 h1
  simp [serveP, bestMatch, hup, exactMatch, paramMatch, wildMatch, segIsLitMatch,
        segMatches, bindParams, hs0, Option.orElse]

/-- Witness for C2: the suffix abc is non-empty and slash-free, and GET
/blobs/abc returns the item handler with id bound to abc while GET /blobs/
returns the collection handler. -/
theorem serve_param_binding_witness :
    serve blobRt "GET" ("/blobs/" ++ "abc") = .found 1 [("id", "abc")] ∧
    paramMatch ⟨[Seg.lit "blobs", Seg.param "id"], false⟩ (parsePath "/blobs/")
      = false ∧
    serve blobRt "GET" "/blobs/" = .found 0 [] :=
  serve_param_binding "abc" (by decide) (by decide)

end Rest
